import Mathlib

/-!
Verification development for the muon line-integration predictor
(`ctapipe/calib/array/muon_integrator.py`) and the camera-geometry model
(`ctapipe/io/camera.py`).

The Python code delegates its geometry to external libraries.  Those library
services are modelled over the reals:

* shapely's `Polygon.intersection(LineString)` plus arc length is modelled,
  for the convex counter-clockwise polygons the predictor is used with, by
  clipping the segment's parameter interval against each edge's half-plane;
* `scipy.ndimage.correlate1d(..., mode="wrap")` is modelled as a cyclic
  correlation with the filter origin at `size / 2`;
* `numpy.linspace`, `numpy.arctan2` and `numpy.interp` are modelled from
  their documented semantics.

Fallible code is embedded in `Except`: the embedding records exactly which
shapely steps of `intersect_polygon` sit inside a `try`/`except` block and
which raise uncaught.
-/

set_option maxHeartbeats 1000000

/-- A planar point, an (x, y) pair of reals. -/
abbrev Pt : Type := ℝ × ℝ

/-- A finite line segment, a (start point, end point) pair. -/
abbrev Seg : Type := Pt × Pt

/-- Euclidean length of a segment. -/
noncomputable def segLength (s : Seg) : ℝ :=
  Real.sqrt ((s.2.1 - s.1.1) ^ 2 + (s.2.2 - s.1.2) ^ 2)

/-- Auxiliary for `edges`: pairs consecutive vertices and closes back to the
first vertex. -/
def edgesAux (first : Pt) : List Pt → List (Pt × Pt)
  | [] => []
  | [a] => [(a, first)]
  | a :: b :: rest => (a, b) :: edgesAux first (b :: rest)

/-- Directed edge list of a polygon given by its vertex list, including the
closing edge from the last vertex back to the first. -/
def edges : List Pt → List (Pt × Pt)
  | [] => []
  | a :: rest => edgesAux a (a :: rest)

/-- Constant coefficient of the half-plane constraint of one polygon edge
along a segment: the cross product of the edge direction with the vector
from the edge base to the segment's start point. -/
noncomputable def ec0 (s : Seg) (e : Pt × Pt) : ℝ :=
  (e.2.1 - e.1.1) * (s.1.2 - e.1.2) - (e.2.2 - e.1.2) * (s.1.1 - e.1.1)

/-- Linear coefficient of the half-plane constraint of one polygon edge along
a segment: the cross product of the edge direction with the segment
direction. -/
noncomputable def ec1 (s : Seg) (e : Pt × Pt) : ℝ :=
  (e.2.1 - e.1.1) * (s.2.2 - s.1.2) - (e.2.2 - e.1.2) * (s.2.1 - s.1.1)

/-- Clip the parameter interval of a segment against the inner half-plane of
one polygon edge.  For a counter-clockwise polygon the interior lies to the
left of each directed edge, so a point at parameter `t` on the segment is
inside this edge's half-plane exactly when `ec0 + t * ec1 ≥ 0`. -/
noncomputable def clipEdge (s : Seg) (e : Pt × Pt) (I : ℝ × ℝ) : ℝ × ℝ :=
  if 0 < ec1 s e then (max I.1 (-ec0 s e / ec1 s e), I.2)
  else if ec1 s e < 0 then (I.1, min I.2 (-ec0 s e / ec1 s e))
  else if ec0 s e < 0 then (1, 0)
  else I

/-- Parameter sub-interval of [0, 1] along which a segment lies inside a
convex counter-clockwise polygon; an inverted pair encodes an empty
intersection.  A vertex list with fewer than 3 points (for instance the
empty hole polygon) is a degenerate polygon and intersects nothing, as
shapely's empty polygon does. -/
noncomputable def clipInterval (poly : List Pt) (s : Seg) : ℝ × ℝ :=
  if poly.length < 3 then (1, 0)
  else (edges poly).foldl (fun I e => clipEdge s e I) (0, 1)

/-- Shape of a segment/convex-polygon intersection as shapely reports it:
empty, a single point, or a sub-segment carrying its arc length. -/
inductive IsectClass where
  | empty : IsectClass
  | point : IsectClass
  | segment : ℝ → IsectClass

/-- Modelled from the library: shapely's `Polygon.intersection(LineString)`
for a convex counter-clockwise polygon and a single segment, together with
shapely's arc-length measure.  The result is an empty geometry, a point
(tangency), or one sub-segment with its Euclidean length. -/
noncomputable def classifyIntersection (poly : List Pt) (s : Seg) : IsectClass :=
  if (clipInterval poly s).2 < (clipInterval poly s).1 then .empty
  else if (clipInterval poly s).1 = (clipInterval poly s).2 then .point
  else .segment (((clipInterval poly s).2 - (clipInterval poly s).1) * segLength s)

/-- Arc length of the intersection of a segment with a convex polygon: 0 for
an empty or single-point intersection and the sub-segment length otherwise.
Follows the spec's words for the per-term arc length in component 4.3. -/
noncomputable def arcLengthIn (poly : List Pt) (s : Seg) : ℝ :=
  match classifyIntersection poly s with
  | .empty => 0
  | .point => 0
  | .segment l => l

/-- Embedding of `MuonLineIntegrate.dir_to_line`: end point of the segment
of the given length from the centre in direction `angle`, with the source's
convention `dx = length * sin angle`, `dy = length * cos angle`. -/
noncomputable def dir_to_line (centre_x centre_y angle length : ℝ) : Pt :=
  (centre_x + length * Real.sin angle, centre_y + length * Real.cos angle)

/-- Embedding of `MuonLineIntegrate.intersect_polygon`.  The shapely calls are
modelled by `classifyIntersection`.  For the mirror, reading `.coords` of an
empty intersection raises inside the `try` block and is caught (returning 0),
but the `LineString(intersection_line)` construction sits after the `try`
block, so a single-point mirror intersection raises uncaught — hence the
`Except`.  For the hole, both the `.coords` read and the `LineString`
construction are inside the hole's own `try` block, so both hole
degeneracies are caught and contribute length 0. -/
noncomputable def intersect_polygon (mirror hole : List Pt)
    (impact_x impact_y angle : ℝ) : Except Unit ℝ :=
  match classifyIntersection mirror
      ((impact_x, impact_y), dir_to_line impact_x impact_y angle 100) with
  | .empty => .ok 0
  | .point => .error ()
  | .segment len =>
    .ok (len -
      match classifyIntersection hole
          ((impact_x, impact_y), dir_to_line impact_x impact_y angle 100) with
      | .empty => 0
      | .point => 0
      | .segment lh => lh)

/-- Number of angular bins used by `plot_pos`:
`int((2 * pi * radius) / pixel_width) * oversample_bins`. -/
noncomputable def nbins (pixel_width : ℝ) (oversample_bins : ℕ) (radius : ℝ) : ℕ :=
  ⌊2 * Real.pi * radius / pixel_width⌋₊ * oversample_bins

/-- Modelled from the library: `numpy.linspace a b n`, n points evenly spaced
from `a` to `b`, both endpoints included when `n ≥ 2`. -/
noncomputable def linspace (a b : ℝ) (n : ℕ) : List ℝ :=
  List.ofFn (fun i : Fin n => a + (b - a) * (i : ℕ) / ((n : ℝ) - 1))

/-- Left-to-right monadic map over `Except`, stopping at the first error, as
the evaluation loop of `plot_pos` does. -/
def mapExcept (f : ℝ → Except Unit ℝ) : List ℝ → Except Unit (List ℝ)
  | [] => .ok []
  | a :: as =>
    match f a with
    | .error e => .error e
    | .ok b =>
      match mapExcept f as with
      | .error e => .error e
      | .ok bs => .ok (b :: bs)

/-- Modelled from the library: `scipy.ndimage.correlate1d(input, weights,
mode="wrap", origin=0)`.  Output index `i` is the sum over the kernel of
`weights[j] * input[(i + j - m/2) mod n]` where `m` is the kernel size and
indices wrap cyclically. -/
noncomputable def correlate1d_wrap (input weights : List ℝ) : List ℝ :=
  List.ofFn (fun i : Fin input.length =>
    (Finset.range weights.length).sum (fun j =>
      weights.getD j 0 *
        input.getD
          ((((i.val : ℤ) + (j : ℤ) - ((weights.length / 2 : ℕ) : ℤ)).emod
            (input.length : ℤ)).toNat) 0))

/-- Embedding of `MuonLineIntegrate.plot_pos`: sample `intersect_polygon`
over `nbins` angles evenly spaced on [0, 2π], then smooth with a cyclic
ones-kernel correlation and divide by `oversample_bins`.  An error raised by
any `intersect_polygon` call escapes, as in the source loop. -/
noncomputable def plot_pos (mirror hole : List Pt) (pixel_width : ℝ)
    (oversample_bins : ℕ) (impact_x impact_y radius : ℝ) :
    Except Unit (List ℝ × List ℝ) :=
  match mapExcept (intersect_polygon mirror hole impact_x impact_y)
      (linspace 0 (2 * Real.pi) (nbins pixel_width oversample_bins radius)) with
  | .error e => .error e
  | .ok l => .ok (linspace 0 (2 * Real.pi) (nbins pixel_width oversample_bins radius),
      (correlate1d_wrap l (List.replicate oversample_bins 1)).map
        (fun v => v / ((oversample_bins : ℕ) : ℝ)))

/-- Follows the spec's words (component 4.4, step 4): a circular
(wrap-around) moving average of window `m` over a sequence, the window
placed per the wrap filter convention with origin `m / 2`. -/
noncomputable def circular_moving_average (xs : List ℝ) (m : ℕ) : List ℝ :=
  List.ofFn (fun i : Fin xs.length =>
    (Finset.range m).sum (fun j =>
      xs.getD ((((i.val : ℤ) + (j : ℤ) - ((m / 2 : ℕ) : ℤ)).emod
        (xs.length : ℤ)).toNat) 0) / ((m : ℕ) : ℝ))

/-- Modelled from the library: `numpy.arctan2 y x` over the reals with signed
zeros ignored — the angle of the point (x, y), in (-π, π]. -/
noncomputable def arctan2 (y x : ℝ) : ℝ :=
  if 0 < x then Real.arctan (y / x)
  else if x < 0 then
    (if 0 ≤ y then Real.arctan (y / x) + Real.pi else Real.arctan (y / x) - Real.pi)
  else
    (if 0 < y then Real.pi / 2 else if y < 0 then -(Real.pi / 2) else 0)

/-- Embedding of `MuonLineIntegrate.pos_to_angle` (per element): the angle of
a pixel relative to the ring centre, with the source's swapped convention
`arctan2 (pixel_x - centre_x) (pixel_y - centre_y)`. -/
noncomputable def pos_to_angle (centre_x centre_y pixel_x pixel_y : ℝ) : ℝ :=
  arctan2 (pixel_x - centre_x) (pixel_y - centre_y)

/-- Modelled from the library: `numpy.interp x xp fp` over a list of
(xp, fp) pairs with xp sorted ascending: clamp to the first value below the
domain, to the last value above it, and interpolate linearly between the
bracketing points otherwise. -/
noncomputable def np_interp (x : ℝ) : List (ℝ × ℝ) → ℝ
  | [] => 0
  | [p] => p.2
  | p :: q :: rest =>
    if x ≤ p.1 then p.2
    else if x ≤ q.1 then p.2 + (x - p.1) * (q.2 - p.2) / (q.1 - p.1)
    else np_interp x (q :: rest)

/-- Embedding of `MuonLineIntegrate.image_prediction`: per-pixel lookup angle
`pos_to_angle + π`, interpolation of the `plot_pos` profile at that angle,
and multiplication by the Gaussian radial falloff
`exp (-((radial_dist - radius) / width)^2) / sqrt (π * 2 * width^2)`. -/
noncomputable def image_prediction (mirror hole : List Pt) (pixel_width : ℝ)
    (oversample_bins : ℕ) (impact_x impact_y centre_x centre_y radius width : ℝ)
    (pixel_x pixel_y : List ℝ) : Except Unit (List ℝ) :=
  match plot_pos mirror hole pixel_width oversample_bins impact_x impact_y radius with
  | .error e => .error e
  | .ok (ang_prof, profile) =>
    .ok (List.zipWith
      (fun p q => p * Real.exp (-((Real.sqrt ((q.1 - centre_x) ^ 2 + (q.2 - centre_y) ^ 2)
            - radius) / width) ^ 2)
          / Real.sqrt (Real.pi * 2 * width ^ 2))
      ((List.zipWith (fun a b => pos_to_angle centre_x centre_y a b + Real.pi)
          pixel_x pixel_y).map
        (fun a => np_interp a (ang_prof.zip profile)))
      (pixel_x.zip pixel_y))

/-- Embedding of the `CameraGeometry` data model of `ctapipe/io/camera.py`. -/
structure CameraGeometry where
  cam_id : String
  pix_id : List ℕ
  pix_x : List ℝ
  pix_y : List ℝ
  pix_area : List ℝ
  neighbors : List (List ℕ)
  pix_type : String

/-- Modelled from the spec: `rotation_matrix_2d` (from `ctapipe.core.linalg`,
whose source is not included) is the standard 2D rotation matrix
`[[cos θ, -sin θ], [sin θ, cos θ]]`, stored row-major. -/
noncomputable def rotation_matrix_2d (angle : ℝ) : (ℝ × ℝ) × (ℝ × ℝ) :=
  ((Real.cos angle, -Real.sin angle), (Real.sin angle, Real.cos angle))

/-- Embedding of `CameraGeometry.rotate`: apply the transpose of
`rotation_matrix_2d angle` to the pixel coordinate columns, leaving every
other field unchanged.  The in-place mutation of the source is rendered as
returning the updated record. -/
noncomputable def CameraGeometry.rotate (g : CameraGeometry) (angle : ℝ) :
    CameraGeometry :=
  { g with
    pix_x := List.zipWith
      (fun x y => (rotation_matrix_2d angle).1.1 * x + (rotation_matrix_2d angle).2.1 * y)
      g.pix_x g.pix_y,
    pix_y := List.zipWith
      (fun x y => (rotation_matrix_2d angle).1.2 * x + (rotation_matrix_2d angle).2.2 * y)
      g.pix_x g.pix_y }

/-- Embedding of `find_neighbor_pixels`: for each point index, the indices of
all points within Euclidean distance `rad` (inclusive, via the KD-tree ball
query), with the point's own index removed. -/
noncomputable def find_neighbor_pixels (pix_x pix_y : List ℝ) (rad : ℝ) :
    List (List ℕ) :=
  (List.range pix_x.length).map (fun i =>
    ((List.range pix_x.length).filter (fun j =>
      decide (Real.sqrt ((pix_x.getD j 0 - pix_x.getD i 0) ^ 2 +
        (pix_y.getD j 0 - pix_y.getD i 0) ^ 2) ≤ rad))).erase i)

/-- Python's `str.startswith`, on the underlying character lists. -/
def startswith (s p : String) : Bool :=
  s.data.take p.data.length == p.data

/-- The module-level `_npix_to_type` lookup with its `.get` default
`('unknown', 'hexagonal')`. -/
def npix_to_type (n : ℕ) : String × String :=
  if n = 2048 then ("SST", "rectangular")
  else if n = 1141 then ("MST", "hexagonal")
  else if n = 1855 then ("LST", "hexagonal")
  else if n = 11328 then ("SST", "rectangular")
  else ("unknown", "hexagonal")

/-- Embedding of `guess_camera_type`. -/
def guess_camera_type (npix : ℕ) : String × String :=
  npix_to_type npix

/-- Embedding of `guess_camera_geometry` (units stripped; unit handling is an
external collaborator per the spec).  Accessing `pix_x[1]` on input shorter
than two pixels raises an IndexError in the source, recorded here as the
distinct error string "IndexError"; the `else` branch of the pixel-type
dispatch raises `KeyError("unsupported pixel type")`. -/
noncomputable def guess_camera_geometry (pix_x pix_y : List ℝ) :
    Except String CameraGeometry :=
  match pix_x, pix_y with
  | x0 :: x1 :: _, y0 :: y1 :: _ =>
    let ct := guess_camera_type pix_x.length
    let dx := x1 - x0
    let dy := y1 - y0
    let dist := Real.sqrt (dx ^ 2 + dy ^ 2)
    if startswith ct.2 "hex" then
      .ok { cam_id := ct.1, pix_id := List.range pix_x.length,
            pix_x := pix_x, pix_y := pix_y,
            pix_area := List.replicate pix_x.length
              ((dist / Real.sqrt 3) ^ 2 * (3 * Real.sqrt 3 / 2)),
            neighbors := find_neighbor_pixels pix_x pix_y (dx + 1 / 100),
            pix_type := ct.2 }
    else if startswith ct.2 "rect" then
      .ok { cam_id := ct.1, pix_id := List.range pix_x.length,
            pix_x := pix_x, pix_y := pix_y,
            pix_area := List.replicate pix_x.length (dist ^ 2),
            neighbors := find_neighbor_pixels pix_x pix_y (dx + 1 / 100),
            pix_type := ct.2 }
    else .error "unsupported pixel type"
  | _, _ => .error "IndexError"

/-- The square mirror polygon of the spec's end-to-end scenario (section 8.6),
counter-clockwise. -/
noncomputable def sqPoly : List Pt := [(-1, -1), (1, -1), (1, 1), (-1, 1)]

/-- A small concrete camera geometry used to instantiate theorems. -/
noncomputable def gWitness : CameraGeometry :=
  { cam_id := "test", pix_id := [0], pix_x := [1], pix_y := [0],
    pix_area := [1], neighbors := [[]], pix_type := "hexagonal" }

lemma sqrt_two_pos : 0 < Real.sqrt 2 := Real.sqrt_pos.mpr (by norm_num)

lemma sqrt_two_le_two : Real.sqrt 2 ≤ 2 := by
  nlinarith [Real.sq_sqrt (show (0:ℝ) ≤ 2 by norm_num), Real.sqrt_nonneg 2]

lemma two_div_sqrt_two : (2:ℝ) / (100 * Real.sqrt 2) = Real.sqrt 2 / 100 := by
  have h2 : Real.sqrt 2 * Real.sqrt 2 = 2 := Real.mul_self_sqrt (by norm_num)
  rw [div_eq_div_iff (by positivity) (by norm_num)]
  linear_combination (-100:ℝ) * h2

lemma six_div_sqrt_two : (6:ℝ) / (100 * Real.sqrt 2) = 3 * Real.sqrt 2 / 100 := by
  have h2 : Real.sqrt 2 * Real.sqrt 2 = 2 := Real.mul_self_sqrt (by norm_num)
  rw [div_eq_div_iff (by positivity) (by norm_num)]
  linear_combination (-300:ℝ) * h2

lemma sq_edges : edges sqPoly =
    [((-1,-1),(1,-1)), ((1,-1),(1,1)), ((1,1),(-1,1)), ((-1,1),(-1,-1))] := rfl

lemma clip_sq_up : clipInterval sqPoly ((0,0),(0,100)) = (0, 1/100) := by
  have hne : ¬ (sqPoly.length < 3) := by norm_num [sqPoly]
  rw [clipInterval, if_neg hne, sq_edges]
  simp only [List.foldl_cons, List.foldl_nil]
  have e1 : clipEdge ((0,0),(0,100)) ((-1,-1),(1,-1)) (0,1) = (0,1) := by
    have h1 : ec1 ((0,0),(0,100)) ((-1,-1),(1,-1)) = 200 := by norm_num [ec1]
    have h0 : ec0 ((0,0),(0,100)) ((-1,-1),(1,-1)) = 2 := by norm_num [ec0]
    rw [clipEdge, h0, h1, if_pos (by norm_num : (0:ℝ) < 200)]
    norm_num [max_def]
  have e2 : clipEdge ((0,0),(0,100)) ((1,-1),(1,1)) (0,1) = (0,1) := by
    have h1 : ec1 ((0,0),(0,100)) ((1,-1),(1,1)) = 0 := by norm_num [ec1]
    have h0 : ec0 ((0,0),(0,100)) ((1,-1),(1,1)) = 2 := by norm_num [ec0]
    rw [clipEdge, h0, h1, if_neg (by norm_num), if_neg (by norm_num), if_neg (by norm_num)]
  have e3 : clipEdge ((0,0),(0,100)) ((1,1),(-1,1)) (0,1) = (0, 1/100) := by
    have h1 : ec1 ((0,0),(0,100)) ((1,1),(-1,1)) = -200 := by norm_num [ec1]
    have h0 : ec0 ((0,0),(0,100)) ((1,1),(-1,1)) = 2 := by norm_num [ec0]
    rw [clipEdge, h0, h1, if_neg (by norm_num), if_pos (by norm_num : (-200:ℝ) < 0)]
    norm_num [min_def]
  have e4 : clipEdge ((0,0),(0,100)) ((-1,1),(-1,-1)) (0, 1/100) = (0, 1/100) := by
    have h1 : ec1 ((0,0),(0,100)) ((-1,1),(-1,-1)) = 0 := by norm_num [ec1]
    have h0 : ec0 ((0,0),(0,100)) ((-1,1),(-1,-1)) = 2 := by norm_num [ec0]
    rw [clipEdge, h0, h1, if_neg (by norm_num), if_neg (by norm_num), if_neg (by norm_num)]
  rw [e1, e2, e3, e4]

lemma segLength_up : segLength ((0,0),((0:ℝ),(100:ℝ))) = 100 := by
  show Real.sqrt (((0:ℝ) - 0) ^ 2 + ((100:ℝ) - 0) ^ 2) = 100
  rw [show ((0:ℝ) - 0) ^ 2 + ((100:ℝ) - 0) ^ 2 = 100 ^ 2 by norm_num]
  exact Real.sqrt_sq (by norm_num)

lemma classify_sq_up : classifyIntersection sqPoly ((0,0),((0:ℝ),(100:ℝ))) = .segment 1 := by
  rw [classifyIntersection, clip_sq_up, if_neg (by norm_num), if_neg (by norm_num),
    segLength_up]
  norm_num

lemma classify_deg (poly : List Pt) (s : Seg) (h : poly.length < 3) :
    classifyIntersection poly s = .empty := by
  rw [classifyIntersection, clipInterval, if_pos h]
  norm_num

lemma dir_up : dir_to_line 0 0 0 100 = ((0:ℝ), (100:ℝ)) := by
  simp [dir_to_line]

lemma intersect_sq_up : intersect_polygon sqPoly [] 0 0 0 = .ok 1 := by
  have h2 : classifyIntersection [] ((0,0),((0:ℝ),(100:ℝ))) = .empty :=
    classify_deg _ _ (by norm_num)
  rw [intersect_polygon, dir_up, classify_sq_up, h2]
  norm_num

/-- C6 (amended): with the square mirror of the spec's scenario 8.6, the
degenerate empty hole and impact point at the centre, the call
`intersect_polygon 0 0 0` returns 1: the segment starts at the impact point
(0, 0), so its intersection with the square is the half-chord from (0, 0) to
(0, 1) of length 1, not the full vertical chord. -/
theorem intersect_polygon_center_up_one : intersect_polygon sqPoly [] 0 0 0 = .ok 1 :=
  intersect_sq_up

/-- C6: counterexample — the same call does not return 2, the value the claim
asserts (the full chord length through the square). -/
theorem intersect_polygon_center_up_not_two :
    ¬ (intersect_polygon sqPoly [] 0 0 0 = .ok 2) := by
  rw [intersect_sq_up]
  intro h
  exact absurd (Except.ok.inj h) (by norm_num)

lemma ec0_mk (p1 p2 q1 q2 a1 a2 b1 b2 : ℝ) :
    ec0 ((p1,p2),(q1,q2)) ((a1,a2),(b1,b2)) =
      (b1 - a1) * (p2 - a2) - (b2 - a2) * (p1 - a1) := rfl

lemma ec1_mk (p1 p2 q1 q2 a1 a2 b1 b2 : ℝ) :
    ec1 ((p1,p2),(q1,q2)) ((a1,a2),(b1,b2)) =
      (b1 - a1) * (q2 - p2) - (b2 - a2) * (q1 - p1) := rfl

lemma sqrt2_div_le_one : Real.sqrt 2 / 100 ≤ 1 := by
  rw [div_le_one (by norm_num : (0:ℝ) < 100)]
  linarith [sqrt_two_le_two]

lemma three_sqrt2_div_le_one : 3 * Real.sqrt 2 / 100 ≤ 1 := by
  rw [div_le_one (by norm_num : (0:ℝ) < 100)]
  linarith [sqrt_two_le_two]

lemma clip_tanA : clipInterval sqPoly ((2,0),(2 - 50*Real.sqrt 2, 50*Real.sqrt 2)) =
    (Real.sqrt 2 / 100, Real.sqrt 2 / 100) := by
  have hne : ¬ (sqPoly.length < 3) := by norm_num [sqPoly]
  rw [clipInterval, if_neg hne, sq_edges]
  simp only [List.foldl_cons, List.foldl_nil]
  have e1 : clipEdge ((2,0),(2 - 50*Real.sqrt 2, 50*Real.sqrt 2)) ((-1,-1),(1,-1)) (0,1)
      = (0,1) := by
    have h0 : ec0 ((2,0),(2 - 50*Real.sqrt 2, 50*Real.sqrt 2)) ((-1,-1),(1,-1)) = 2 := by
      rw [ec0_mk]; ring
    have h1 : ec1 ((2,0),(2 - 50*Real.sqrt 2, 50*Real.sqrt 2)) ((-1,-1),(1,-1))
        = 100*Real.sqrt 2 := by
      rw [ec1_mk]; ring
    have hv : (-2:ℝ)/(100*Real.sqrt 2) ≤ 0 := by
      rw [neg_div]; exact neg_nonpos.mpr (by positivity)
    rw [clipEdge, h0, h1, if_pos (by positivity : (0:ℝ) < 100*Real.sqrt 2)]
    simp [max_eq_left hv]
  have e2 : clipEdge ((2,0),(2 - 50*Real.sqrt 2, 50*Real.sqrt 2)) ((1,-1),(1,1)) (0,1)
      = (Real.sqrt 2 / 100, 1) := by
    have h0 : ec0 ((2,0),(2 - 50*Real.sqrt 2, 50*Real.sqrt 2)) ((1,-1),(1,1)) = -2 := by
      rw [ec0_mk]; ring
    have h1 : ec1 ((2,0),(2 - 50*Real.sqrt 2, 50*Real.sqrt 2)) ((1,-1),(1,1))
        = 100*Real.sqrt 2 := by
      rw [ec1_mk]; ring
    have hv : -(-2:ℝ)/(100*Real.sqrt 2) = Real.sqrt 2 / 100 := by
      rw [neg_neg]; exact two_div_sqrt_two
    rw [clipEdge, h0, h1, if_pos (by positivity : (0:ℝ) < 100*Real.sqrt 2)]
    simp [hv, two_div_sqrt_two, max_eq_right (by positivity : (0:ℝ) ≤ Real.sqrt 2 / 100)]
  have e3 : clipEdge ((2,0),(2 - 50*Real.sqrt 2, 50*Real.sqrt 2)) ((1,1),(-1,1))
      (Real.sqrt 2 / 100, 1) = (Real.sqrt 2 / 100, Real.sqrt 2 / 100) := by
    have h0 : ec0 ((2,0),(2 - 50*Real.sqrt 2, 50*Real.sqrt 2)) ((1,1),(-1,1)) = 2 := by
      rw [ec0_mk]; ring
    have h1 : ec1 ((2,0),(2 - 50*Real.sqrt 2, 50*Real.sqrt 2)) ((1,1),(-1,1))
        = -(100*Real.sqrt 2) := by
      rw [ec1_mk]; ring
    have hv : (-2:ℝ)/(-(100*Real.sqrt 2)) = Real.sqrt 2 / 100 := by
      rw [neg_div_neg_eq]; exact two_div_sqrt_two
    rw [clipEdge, h0, h1, if_neg (by simp [not_lt]; try positivity),
      if_pos (neg_lt_zero.mpr (by positivity : (0:ℝ) < 100*Real.sqrt 2))]
    simp [hv, min_eq_right sqrt2_div_le_one]
  have e4 : clipEdge ((2,0),(2 - 50*Real.sqrt 2, 50*Real.sqrt 2)) ((-1,1),(-1,-1))
      (Real.sqrt 2 / 100, Real.sqrt 2 / 100) = (Real.sqrt 2 / 100, Real.sqrt 2 / 100) := by
    have h0 : ec0 ((2,0),(2 - 50*Real.sqrt 2, 50*Real.sqrt 2)) ((-1,1),(-1,-1)) = 6 := by
      rw [ec0_mk]; ring
    have h1 : ec1 ((2,0),(2 - 50*Real.sqrt 2, 50*Real.sqrt 2)) ((-1,1),(-1,-1))
        = -(100*Real.sqrt 2) := by
      rw [ec1_mk]; ring
    have hv : (-6:ℝ)/(-(100*Real.sqrt 2)) = 3 * Real.sqrt 2 / 100 := by
      rw [neg_div_neg_eq]; exact six_div_sqrt_two
    have hmin : min (Real.sqrt 2 / 100) (3 * Real.sqrt 2 / 100) = Real.sqrt 2 / 100 :=
      min_eq_left (by linarith [Real.sqrt_nonneg 2])
    rw [clipEdge, h0, h1, if_neg (by simp [not_lt]; try positivity),
      if_pos (neg_lt_zero.mpr (by positivity : (0:ℝ) < 100*Real.sqrt 2))]
    simp [hv, hmin]
  rw [e1, e2, e3, e4]

lemma classify_tanA :
    classifyIntersection sqPoly ((2,0),(2 - 50*Real.sqrt 2, 50*Real.sqrt 2)) = .point := by
  rw [classifyIntersection, clip_tanA]
  simp

lemma dir_tanA : dir_to_line 2 0 (-(Real.pi/4)) 100 =
    ((2 - 50*Real.sqrt 2 : ℝ), (50*Real.sqrt 2 : ℝ)) := by
  have hx : (2:ℝ) + 100 * -(Real.sqrt 2/2) = 2 - 50*Real.sqrt 2 := by ring
  have hy : (0:ℝ) + 100 * (Real.sqrt 2/2) = 50*Real.sqrt 2 := by ring
  rw [dir_to_line, Real.sin_neg, Real.cos_neg, Real.sin_pi_div_four,
    Real.cos_pi_div_four, hx, hy]

lemma clip_tanB : clipInterval sqPoly ((-2,0),(-2 + 50*Real.sqrt 2, 50*Real.sqrt 2)) =
    (Real.sqrt 2 / 100, Real.sqrt 2 / 100) := by
  have hne : ¬ (sqPoly.length < 3) := by norm_num [sqPoly]
  rw [clipInterval, if_neg hne, sq_edges]
  simp only [List.foldl_cons, List.foldl_nil]
  have e1 : clipEdge ((-2,0),(-2 + 50*Real.sqrt 2, 50*Real.sqrt 2)) ((-1,-1),(1,-1)) (0,1)
      = (0,1) := by
    have h0 : ec0 ((-2,0),(-2 + 50*Real.sqrt 2, 50*Real.sqrt 2)) ((-1,-1),(1,-1)) = 2 := by
      rw [ec0_mk]; ring
    have h1 : ec1 ((-2,0),(-2 + 50*Real.sqrt 2, 50*Real.sqrt 2)) ((-1,-1),(1,-1))
        = 100*Real.sqrt 2 := by
      rw [ec1_mk]; ring
    have hv : (-2:ℝ)/(100*Real.sqrt 2) ≤ 0 := by
      rw [neg_div]; exact neg_nonpos.mpr (by positivity)
    rw [clipEdge, h0, h1, if_pos (by positivity : (0:ℝ) < 100*Real.sqrt 2)]
    simp [max_eq_left hv]
  have e2 : clipEdge ((-2,0),(-2 + 50*Real.sqrt 2, 50*Real.sqrt 2)) ((1,-1),(1,1)) (0,1)
      = (0, 3 * Real.sqrt 2 / 100) := by
    have h0 : ec0 ((-2,0),(-2 + 50*Real.sqrt 2, 50*Real.sqrt 2)) ((1,-1),(1,1)) = 6 := by
      rw [ec0_mk]; ring
    have h1 : ec1 ((-2,0),(-2 + 50*Real.sqrt 2, 50*Real.sqrt 2)) ((1,-1),(1,1))
        = -(100*Real.sqrt 2) := by
      rw [ec1_mk]; ring
    have hv : (-6:ℝ)/(-(100*Real.sqrt 2)) = 3 * Real.sqrt 2 / 100 := by
      rw [neg_div_neg_eq]; exact six_div_sqrt_two
    rw [clipEdge, h0, h1, if_neg (by simp [not_lt]; try positivity),
      if_pos (neg_lt_zero.mpr (by positivity : (0:ℝ) < 100*Real.sqrt 2))]
    simp [hv, min_eq_right three_sqrt2_div_le_one]
  have e3 : clipEdge ((-2,0),(-2 + 50*Real.sqrt 2, 50*Real.sqrt 2)) ((1,1),(-1,1))
      (0, 3 * Real.sqrt 2 / 100) = (0, Real.sqrt 2 / 100) := by
    have h0 : ec0 ((-2,0),(-2 + 50*Real.sqrt 2, 50*Real.sqrt 2)) ((1,1),(-1,1)) = 2 := by
      rw [ec0_mk]; ring
    have h1 : ec1 ((-2,0),(-2 + 50*Real.sqrt 2, 50*Real.sqrt 2)) ((1,1),(-1,1))
        = -(100*Real.sqrt 2) := by
      rw [ec1_mk]; ring
    have hv : (-2:ℝ)/(-(100*Real.sqrt 2)) = Real.sqrt 2 / 100 := by
      rw [neg_div_neg_eq]; exact two_div_sqrt_two
    have hmin : min (3 * Real.sqrt 2 / 100) (Real.sqrt 2 / 100) = Real.sqrt 2 / 100 :=
      min_eq_right (by linarith [Real.sqrt_nonneg 2])
    rw [clipEdge, h0, h1, if_neg (by simp [not_lt]; try positivity),
      if_pos (neg_lt_zero.mpr (by positivity : (0:ℝ) < 100*Real.sqrt 2))]
    simp [hv, hmin]
  have e4 : clipEdge ((-2,0),(-2 + 50*Real.sqrt 2, 50*Real.sqrt 2)) ((-1,1),(-1,-1))
      (0, Real.sqrt 2 / 100) = (Real.sqrt 2 / 100, Real.sqrt 2 / 100) := by
    have h0 : ec0 ((-2,0),(-2 + 50*Real.sqrt 2, 50*Real.sqrt 2)) ((-1,1),(-1,-1)) = -2 := by
      rw [ec0_mk]; ring
    have h1 : ec1 ((-2,0),(-2 + 50*Real.sqrt 2, 50*Real.sqrt 2)) ((-1,1),(-1,-1))
        = 100*Real.sqrt 2 := by
      rw [ec1_mk]; ring
    have hv : -(-2:ℝ)/(100*Real.sqrt 2) = Real.sqrt 2 / 100 := by
      rw [neg_neg]; exact two_div_sqrt_two
    rw [clipEdge, h0, h1, if_pos (by positivity : (0:ℝ) < 100*Real.sqrt 2)]
    simp [hv, two_div_sqrt_two, max_eq_right (by positivity : (0:ℝ) ≤ Real.sqrt 2 / 100)]
  rw [e1, e2, e3, e4]

lemma classify_tanB :
    classifyIntersection sqPoly ((-2,0),(-2 + 50*Real.sqrt 2, 50*Real.sqrt 2)) = .point := by
  rw [classifyIntersection, clip_tanB]
  simp

lemma dir_tanB : dir_to_line (-2) 0 (Real.pi/4) 100 =
    ((-2 + 50*Real.sqrt 2 : ℝ), (50*Real.sqrt 2 : ℝ)) := by
  have hx : (-2:ℝ) + 100 * (Real.sqrt 2/2) = -2 + 50*Real.sqrt 2 := by ring
  have hy : (0:ℝ) + 100 * (Real.sqrt 2/2) = 50*Real.sqrt 2 := by ring
  rw [dir_to_line, Real.sin_pi_div_four, Real.cos_pi_div_four, hx, hy]

/-- C1: counterexample — with the square mirror, the empty hole, impact point
(2, 0) and angle -π/4, the sampling segment is tangent to the mirror at the
corner (1, 1); `intersect_polygon` raises instead of returning the claimed
difference of arc lengths (which would be 0 - 0 = 0). -/
theorem intersect_polygon_tangent_corner_error :
    intersect_polygon sqPoly [] 2 0 (-(Real.pi/4)) = .error () := by
  rw [intersect_polygon, dir_tanA, classify_tanA]

/-- C1 (amended): for every mirror, hole, impact point and angle the function
builds the segment from (impact_x, impact_y) to
(impact_x + 100 sin angle, impact_y + 100 cos angle); if that segment's
intersection with the mirror is a proper sub-segment it returns the mirror
arc length minus the hole intersection's arc length; if it misses the mirror
it returns 0 (without consulting the hole); and if it is tangent to the
mirror in a single point it raises an error instead of returning. -/
theorem intersect_polygon_amended (mirror hole : List Pt) (ix iy a : ℝ) :
    (classifyIntersection mirror
        ((ix, iy), (ix + 100 * Real.sin a, iy + 100 * Real.cos a)) = .point ∧
      intersect_polygon mirror hole ix iy a = .error ()) ∨
    (classifyIntersection mirror
        ((ix, iy), (ix + 100 * Real.sin a, iy + 100 * Real.cos a)) = .empty ∧
      intersect_polygon mirror hole ix iy a = .ok 0) ∨
    (∃ len, classifyIntersection mirror
        ((ix, iy), (ix + 100 * Real.sin a, iy + 100 * Real.cos a)) = .segment len ∧
      intersect_polygon mirror hole ix iy a =
        .ok (len - arcLengthIn hole
          ((ix, iy), (ix + 100 * Real.sin a, iy + 100 * Real.cos a)))) := by
  have hseg : dir_to_line ix iy a 100 = (ix + 100 * Real.sin a, iy + 100 * Real.cos a) := rfl
  rw [intersect_polygon, hseg]
  cases hm : classifyIntersection mirror
      ((ix, iy), (ix + 100 * Real.sin a, iy + 100 * Real.cos a)) with
  | empty => exact Or.inr (Or.inl ⟨rfl, rfl⟩)
  | point => exact Or.inl ⟨rfl, rfl⟩
  | segment len =>
    refine Or.inr (Or.inr ⟨len, rfl, ?_⟩)
    rw [arcLengthIn]

/-- C2: with the square mirror, the empty hole, impact point (-2, 0) and angle
π/4 the sampling segment is tangent to the mirror at the corner (-1, 1) — a
single-point intersection.  The claim says such degeneracies contribute
length 0 and never raise, but `intersect_polygon` raises: the mirror-side
`LineString` construction sits outside the `try`/`except`. -/
theorem intersect_polygon_mirror_point_raises :
    intersect_polygon sqPoly [] (-2) 0 (Real.pi/4) = .error () := by
  rw [intersect_polygon, dir_tanB, classify_tanB]

lemma mapExcept_length (f : ℝ → Except Unit ℝ) :
    ∀ (xs ys : List ℝ), mapExcept f xs = .ok ys → ys.length = xs.length := by
  intro xs
  induction xs with
  | nil =>
    intro ys h
    simp only [mapExcept, Except.ok.injEq] at h
    subst h
    rfl
  | cons a as ih =>
    intro ys h
    cases hfa : f a with
    | error e =>
      rw [mapExcept, hfa] at h
      simp at h
    | ok b =>
      cases hrest : mapExcept f as with
      | error e =>
        rw [mapExcept, hfa, hrest] at h
        simp at h
      | ok bs =>
        rw [mapExcept, hfa, hrest] at h
        simp only [Except.ok.injEq] at h
        subst h
        simp [ih bs hrest]

lemma linspace_length (a b : ℝ) (n : ℕ) : (linspace a b n).length = n := by
  simp [linspace]

lemma linspace_getD_zero (a b : ℝ) (n : ℕ) (hn : 0 < n) :
    (linspace a b n).getD 0 0 = a := by
  rw [linspace, List.getD_eq_getElem _ _ (by simpa using hn), List.getElem_ofFn]
  simp

lemma linspace_getD_last (a b : ℝ) (n : ℕ) (hn : 2 ≤ n) :
    (linspace a b n).getD (n - 1) 0 = b := by
  have hlt : n - 1 < (List.ofFn (fun i : Fin n => a + (b - a) * (i:ℕ) / ((n:ℝ) - 1))).length := by
    simp
    omega
  rw [linspace, List.getD_eq_getElem _ _ hlt, List.getElem_ofFn]
  show a + (b - a) * ((n - 1 : ℕ) : ℝ) / ((n:ℝ) - 1) = b
  have hne : ((n:ℝ) - 1) ≠ 0 := by
    have h2 : (2:ℝ) ≤ (n:ℝ) := by exact_mod_cast hn
    linarith
  have hcast : (((n - 1 : ℕ)):ℝ) = (n:ℝ) - 1 := by
    have h1 : (1:ℕ) ≤ n := by omega
    push_cast [h1]
    ring
  rw [hcast, mul_div_assoc, div_self hne]
  ring

lemma linspace_getD_spacing (a b : ℝ) (n : ℕ) (i : ℕ) (h : i + 1 < n) :
    (linspace a b n).getD (i+1) 0 - (linspace a b n).getD i 0 = (b - a) / ((n:ℝ) - 1) := by
  have h1 : i + 1 < (List.ofFn (fun i : Fin n => a + (b - a) * (i:ℕ) / ((n:ℝ) - 1))).length := by
    simpa using h
  have h2 : i < (List.ofFn (fun i : Fin n => a + (b - a) * (i:ℕ) / ((n:ℝ) - 1))).length := by
    simp
    omega
  rw [linspace, List.getD_eq_getElem _ _ h1, List.getD_eq_getElem _ _ h2,
    List.getElem_ofFn, List.getElem_ofFn]
  show (a + (b - a) * ((i+1 : ℕ) : ℝ) / ((n:ℝ) - 1)) - (a + (b - a) * ((i : ℕ) : ℝ) / ((n:ℝ) - 1))
    = (b - a) / ((n:ℝ) - 1)
  have hne : ((n:ℝ) - 1) ≠ 0 := by
    have h2n : 2 ≤ n := by omega
    have h2r : (2:ℝ) ≤ (n:ℝ) := by exact_mod_cast h2n
    linarith
  field_simp
  ring

lemma plot_pos_ok_parts (mirror hole : List Pt) (w : ℝ) (ov : ℕ) (ix iy r : ℝ)
    (ang l : List ℝ) (h : plot_pos mirror hole w ov ix iy r = .ok (ang, l)) :
    ang = linspace 0 (2*Real.pi) (nbins w ov r) ∧
    ∃ raw, mapExcept (intersect_polygon mirror hole ix iy) ang = .ok raw ∧
      l = (correlate1d_wrap raw (List.replicate ov 1)).map (fun v => v / ((ov:ℕ):ℝ)) := by
  rw [plot_pos] at h
  cases hm : mapExcept (intersect_polygon mirror hole ix iy)
      (linspace 0 (2*Real.pi) (nbins w ov r)) with
  | error e =>
    rw [hm] at h
    simp at h
  | ok raw =>
    rw [hm] at h
    simp only [Except.ok.injEq, Prod.mk.injEq] at h
    obtain ⟨ha, hl⟩ := h
    subst ha
    exact ⟨rfl, raw, hm, hl.symm⟩

/-- C3 (amended): when the bin count `nbins = int(2 pi radius / pixel_width) *
oversample_bins` is at least 2 (the claim's bare `radius > 0` admits bin
counts 0 and 1, for which the endpoint property fails), a successful
`plot_pos` returns exactly `nbins` angles evenly spaced over [0, 2π] with
both endpoints included, and a length sequence of the same length,
index-aligned. -/
theorem plot_pos_bins_endpoints (mirror hole : List Pt) (w : ℝ) (ov : ℕ)
    (ix iy r : ℝ) (ang l : List ℝ)
    (hb : 2 ≤ nbins w ov r)
    (h : plot_pos mirror hole w ov ix iy r = .ok (ang, l)) :
    ang.length = nbins w ov r ∧ l.length = nbins w ov r ∧
    ang.getD 0 0 = 0 ∧ ang.getD (nbins w ov r - 1) 0 = 2 * Real.pi ∧
    ∀ i, i + 1 < nbins w ov r →
      ang.getD (i+1) 0 - ang.getD i 0 = 2 * Real.pi / ((nbins w ov r : ℝ) - 1) := by
  obtain ⟨ha, raw, hraw, hl⟩ := plot_pos_ok_parts mirror hole w ov ix iy r ang l h
  subst ha
  refine ⟨linspace_length _ _ _, ?_, linspace_getD_zero _ _ _ (by omega),
    linspace_getD_last _ _ _ hb, ?_⟩
  · rw [hl, List.length_map]
    have hc : (correlate1d_wrap raw (List.replicate ov 1)).length = raw.length := by
      simp [correlate1d_wrap]
    rw [hc, mapExcept_length _ _ _ hraw, linspace_length]
  · intro i hi
    have hsp := linspace_getD_spacing 0 (2*Real.pi) (nbins w ov r) i hi
    simpa using hsp

lemma floor_pi_half : ⌊Real.pi / 2⌋₊ = 1 := by
  rw [Nat.floor_eq_iff (by positivity)]
  constructor
  · rw [Nat.cast_one]
    linarith [Real.pi_gt_three]
  · rw [Nat.cast_one]
    linarith [Real.pi_lt_d2]

lemma nbins_small (ov : ℕ) : nbins (1/5) ov (1/20) = ov := by
  have harg : 2 * Real.pi * (1/20) / ((1:ℝ)/5) = Real.pi / 2 := by ring
  rw [nbins, harg, floor_pi_half, one_mul]

lemma linspace_one_pt : linspace 0 (2*Real.pi) 1 = [0] := by
  simp [linspace, List.ofFn_succ]

lemma linspace_two_pt : linspace 0 (2*Real.pi) 2 = [0, 2*Real.pi] := by
  simp [linspace, List.ofFn_succ]
  norm_num

lemma intersect_sq_2pi : intersect_polygon sqPoly [] 0 0 (2*Real.pi) = .ok 1 := by
  have hd : dir_to_line 0 0 (2*Real.pi) 100 = ((0:ℝ), (100:ℝ)) := by
    rw [dir_to_line, Real.sin_two_pi, Real.cos_two_pi]
    norm_num
  have h2 : classifyIntersection [] ((0,0),((0:ℝ),(100:ℝ))) = .empty :=
    classify_deg _ _ (by norm_num)
  rw [intersect_polygon, hd, classify_sq_up, h2]
  norm_num

lemma mapExcept_one : mapExcept (intersect_polygon sqPoly [] 0 0) [0] = .ok [1] := by
  simp [mapExcept, intersect_sq_up]

lemma mapExcept_two :
    mapExcept (intersect_polygon sqPoly [] 0 0) [0, 2*Real.pi] = .ok [1, 1] := by
  simp [mapExcept, intersect_sq_up, intersect_sq_2pi]

lemma corr_one : correlate1d_wrap [1] [1] = [1] := by
  have he : ((Int.emod 0 1).toNat) = 0 := by decide
  simp [correlate1d_wrap, List.ofFn_succ, Finset.sum_range_one, he]

lemma corr_two : correlate1d_wrap [1, 1] [1, 1] = [2, 2] := by
  simp [correlate1d_wrap, List.ofFn_succ, Finset.sum_range_succ, Finset.sum_range_one]
  norm_num

lemma plot_pos_eval_one : plot_pos sqPoly [] (1/5) 1 0 0 (1/20) = .ok ([0], [1]) := by
  rw [plot_pos, nbins_small, linspace_one_pt, mapExcept_one]
  simp [corr_one]

lemma plot_pos_eval_two : plot_pos sqPoly [] (1/5) 2 0 0 (1/20) = .ok ([0, 2*Real.pi], [1, 1]) := by
  rw [plot_pos, nbins_small, linspace_two_pt, mapExcept_two]
  simp [corr_two]

/-- C3: counterexample — with the square mirror, empty hole, pixel width 1/5
and oversample 1, the radius 1/20 is positive yet gives
`bins = int(2 pi (1/20) / (1/5)) * 1 = 1`, so `plot_pos` returns the single
angle [0]: the endpoint 2π is not in the returned angle sequence, contrary
to the claim that both endpoints appear for every radius > 0. -/
theorem plot_pos_single_bin_cex :
    (0:ℝ) < 1/20 ∧
    plot_pos sqPoly [] (1/5) 1 0 0 (1/20) = .ok ([0], [1]) ∧
    (2 * Real.pi) ∉ ([0] : List ℝ) := by
  refine ⟨by norm_num, plot_pos_eval_one, ?_⟩
  simp [Real.pi_ne_zero]

/-- C3: witness instantiating the amended theorem at the square mirror, empty
hole, pixel width 1/5, oversample 2, impact (0,0) and radius 1/20. -/
theorem plot_pos_bins_endpoints_witness :
    ([0, 2*Real.pi] : List ℝ).length = nbins (1/5) 2 (1/20) ∧
    ([1, 1] : List ℝ).length = nbins (1/5) 2 (1/20) ∧
    ([0, 2*Real.pi] : List ℝ).getD 0 0 = 0 ∧
    ([0, 2*Real.pi] : List ℝ).getD (nbins (1/5) 2 (1/20) - 1) 0 = 2 * Real.pi ∧
    ∀ i, i + 1 < nbins (1/5) 2 (1/20) →
      ([0, 2*Real.pi] : List ℝ).getD (i+1) 0 - ([0, 2*Real.pi] : List ℝ).getD i 0
        = 2 * Real.pi / ((nbins (1/5) 2 (1/20) : ℝ) - 1) :=
  plot_pos_bins_endpoints sqPoly [] (1/5) 2 0 0 (1/20) [0, 2*Real.pi] [1, 1]
    (by rw [nbins_small]) plot_pos_eval_two

lemma correlate_ones_avg (xs : List ℝ) (m : ℕ) :
    (correlate1d_wrap xs (List.replicate m 1)).map (fun v => v / ((m:ℕ):ℝ))
      = circular_moving_average xs m := by
  rw [correlate1d_wrap, circular_moving_average, List.map_ofFn]
  congr 1
  funext i
  simp only [Function.comp_apply, List.length_replicate]
  congr 1
  refine Finset.sum_congr rfl ?_
  intro j hj
  rw [List.getD_eq_getElem (List.replicate m (1:ℝ)) 0
    (by simpa using Finset.mem_range.mp hj)]
  simp

/-- C4: whenever `plot_pos` returns, its length sequence is the raw per-angle
`intersect_polygon` values correlated with a kernel of `oversample_bins`
ones with circular (wrap) boundary handling and divided by
`oversample_bins` — that is, a circular moving average of window
`oversample_bins` over the raw chord lengths. -/
theorem plot_pos_smoothing_moving_average (mirror hole : List Pt) (w : ℝ) (ov : ℕ)
    (ix iy r : ℝ) (ang l : List ℝ)
    (h : plot_pos mirror hole w ov ix iy r = .ok (ang, l)) :
    ∃ raw, mapExcept (intersect_polygon mirror hole ix iy) ang = .ok raw ∧
      l = (correlate1d_wrap raw (List.replicate ov 1)).map (fun v => v / ((ov:ℕ):ℝ)) ∧
      l = circular_moving_average raw ov := by
  obtain ⟨ha, raw, hraw, hl⟩ := plot_pos_ok_parts mirror hole w ov ix iy r ang l h
  subst ha
  exact ⟨raw, hraw, hl, hl.trans (correlate_ones_avg raw ov)⟩

/-- C4: witness instantiating the theorem at the square mirror, empty hole,
pixel width 1/5, oversample 2, impact (0,0), radius 1/20. -/
theorem plot_pos_smoothing_witness :
    ∃ raw, mapExcept (intersect_polygon sqPoly [] 0 0) [0, 2*Real.pi] = .ok raw ∧
      ([1, 1] : List ℝ)
        = (correlate1d_wrap raw (List.replicate 2 1)).map (fun v =>
            v / ((2:ℕ):ℝ)) ∧
      ([1, 1] : List ℝ) = circular_moving_average raw 2 :=
  plot_pos_smoothing_moving_average sqPoly [] (1/5) 2 0 0 (1/20) [0, 2*Real.pi] [1, 1]
    plot_pos_eval_two

lemma getD_zipWith (f : ℝ → ℝ → ℝ) (xs ys : List ℝ) (k : ℕ)
    (hk : k < xs.length) (hk2 : k < ys.length) :
    (List.zipWith f xs ys).getD k 0 = f (xs.getD k 0) (ys.getD k 0) := by
  rw [List.getD_eq_getElem _ _ (by simp; omega), List.getElem_zipWith,
    List.getD_eq_getElem _ _ hk, List.getD_eq_getElem _ _ hk2]

/-- C5: whenever the profile generation succeeds, `image_prediction` returns
one value per pixel: the linear interpolation of the `plot_pos` profile at
the pixel's swapped-argument `arctan2` angle shifted by π, multiplied by the
Gaussian radial falloff `exp (-((radial_dist - radius)/width)^2)` divided by
`sqrt (2 π width^2)`. -/
theorem image_prediction_formula (mirror hole : List Pt) (w : ℝ) (ov : ℕ)
    (ix iy cx cy radius width : ℝ) (px py : List ℝ) (ap pf : List ℝ)
    (h : plot_pos mirror hole w ov ix iy radius = .ok (ap, pf))
    (hlen : px.length = py.length) :
    ∃ pred, image_prediction mirror hole w ov ix iy cx cy radius width px py = .ok pred ∧
      pred.length = px.length ∧
      ∀ i, i < px.length → pred.getD i 0 =
        np_interp (arctan2 (px.getD i 0 - cx) (py.getD i 0 - cy) + Real.pi) (ap.zip pf)
          * Real.exp (-((Real.sqrt ((px.getD i 0 - cx)^2 + (py.getD i 0 - cy)^2) - radius)
              / width)^2)
          / Real.sqrt (2 * Real.pi * width^2) := by
  rw [image_prediction, h]
  refine ⟨_, rfl, ?_, ?_⟩
  · simp [hlen]
  · intro i hi
    have hb : i < (List.zipWith
        (fun p q => p * Real.exp (-((Real.sqrt ((q.1 - cx) ^ 2 + (q.2 - cy) ^ 2)
              - radius) / width) ^ 2) / Real.sqrt (Real.pi * 2 * width ^ 2))
        ((List.zipWith (fun a b => pos_to_angle cx cy a b + Real.pi) px py).map
          (fun a => np_interp a (ap.zip pf)))
        (px.zip py)).length := by
      simp [hlen]
      omega
    rw [List.getD_eq_getElem _ _ hb, List.getElem_zipWith, List.getElem_map,
      List.getElem_zipWith, List.getElem_zip,
      List.getD_eq_getElem px 0 hi, List.getD_eq_getElem py 0 (hlen ▸ hi)]
    simp only [pos_to_angle,
      show Real.pi * 2 * width ^ 2 = 2 * Real.pi * width ^ 2 from by ring]

/-- C5: witness instantiating the theorem at the square mirror, empty hole,
pixel width 1/5, oversample 2, ring centre (0,0), radius 1/20, width 1 and
the single pixel (0, 1). -/
theorem image_prediction_formula_witness :
    ∃ pred, image_prediction sqPoly [] (1/5) 2 0 0 0 0 (1/20) 1 [0] [1] = .ok pred ∧
      pred.length = ([0] : List ℝ).length ∧
      ∀ i, i < ([0] : List ℝ).length → pred.getD i 0 =
        np_interp (arctan2 (([0]:List ℝ).getD i 0 - 0) (([1]:List ℝ).getD i 0 - 0) + Real.pi)
          (([0, 2*Real.pi] : List ℝ).zip ([1, 1] : List ℝ))
          * Real.exp (-((Real.sqrt ((([0]:List ℝ).getD i 0 - 0)^2
              + (([1]:List ℝ).getD i 0 - 0)^2) - 1/20) / 1)^2)
          / Real.sqrt (2 * Real.pi * 1^2) :=
  image_prediction_formula sqPoly [] (1/5) 2 0 0 0 0 (1/20) 1 [0] [1] [0, 2*Real.pi] [1, 1]
    plot_pos_eval_two rfl

lemma arctan2_bounds (y x : ℝ) : -Real.pi ≤ arctan2 y x ∧ arctan2 y x ≤ Real.pi := by
  have hpi := Real.pi_pos
  have h1 := Real.arctan_lt_pi_div_two (y / x)
  have h2 := Real.neg_pi_div_two_lt_arctan (y / x)
  rw [arctan2]
  split_ifs with hx hx2 hy hy1 hy2
  · constructor <;> linarith
  · have hyx : y / x ≤ 0 := div_nonpos_iff.mpr (Or.inl ⟨hy, hx2.le⟩)
    have hat : Real.arctan (y / x) ≤ 0 := by
      have hm := Real.arctan_strictMono.monotone hyx
      rwa [Real.arctan_zero] at hm
    constructor <;> linarith
  · have hyx : 0 ≤ y / x := div_nonneg_iff.mpr (Or.inr ⟨by linarith, hx2.le⟩)
    have hat : 0 ≤ Real.arctan (y / x) := by
      have hm := Real.arctan_strictMono.monotone hyx
      rwa [Real.arctan_zero] at hm
    constructor <;> linarith
  · constructor <;> linarith
  · constructor <;> linarith
  · constructor <;> linarith

/-- C9: the corrected per-pixel lookup angle `pos_to_angle + π` used by
`image_prediction` always lies in the closed interval [0, 2π], the domain
spanned by the `plot_pos` angle profile, because `arctan2` only takes values
in [-π, π]; no wrapping or clamping of pixel angles is needed. -/
theorem pos_to_angle_shift_in_profile_domain (cx cy x y : ℝ) :
    pos_to_angle cx cy x y + Real.pi ∈ Set.Icc 0 (2 * Real.pi) := by
  obtain ⟨h1, h2⟩ := arctan2_bounds (x - cx) (y - cy)
  rw [pos_to_angle, Set.mem_Icc]
  constructor <;> linarith

/-- C7: `rotate` changes only the coordinate lists, replacing them with the
image of the pixel positions under the 2D rotation about the origin given by
the transposed rotation matrix (a rotation by the negated angle); the pixel
count, `pix_id`, `pix_area`, `neighbors`, `cam_id` and `pix_type` are
unchanged. -/
theorem rotate_moves_only_coordinates (g : CameraGeometry) (angle : ℝ)
    (hlen : g.pix_x.length = g.pix_y.length) :
    (g.rotate angle).cam_id = g.cam_id ∧
    (g.rotate angle).pix_id = g.pix_id ∧
    (g.rotate angle).pix_area = g.pix_area ∧
    (g.rotate angle).neighbors = g.neighbors ∧
    (g.rotate angle).pix_type = g.pix_type ∧
    (g.rotate angle).pix_x.length = g.pix_x.length ∧
    (g.rotate angle).pix_y.length = g.pix_y.length ∧
    ∀ k, k < g.pix_x.length →
      (g.rotate angle).pix_x.getD k 0
          = Real.cos angle * g.pix_x.getD k 0 + Real.sin angle * g.pix_y.getD k 0 ∧
      (g.rotate angle).pix_y.getD k 0
          = -Real.sin angle * g.pix_x.getD k 0 + Real.cos angle * g.pix_y.getD k 0 := by
  refine ⟨rfl, rfl, rfl, rfl, rfl, ?_, ?_, ?_⟩
  · simp [CameraGeometry.rotate, hlen]
  · simp [CameraGeometry.rotate, hlen]
  · intro k hk
    constructor
    · show (List.zipWith (fun x y =>
          (rotation_matrix_2d angle).1.1 * x + (rotation_matrix_2d angle).2.1 * y)
          g.pix_x g.pix_y).getD k 0 = _
      rw [getD_zipWith _ _ _ _ hk (hlen ▸ hk)]
      simp [rotation_matrix_2d]
    · show (List.zipWith (fun x y =>
          (rotation_matrix_2d angle).1.2 * x + (rotation_matrix_2d angle).2.2 * y)
          g.pix_x g.pix_y).getD k 0 = _
      rw [getD_zipWith _ _ _ _ hk (hlen ▸ hk)]
      simp [rotation_matrix_2d]

/-- C7: witness instantiating the theorem at a one-pixel geometry and angle 0. -/
theorem rotate_moves_only_coordinates_witness :
    (gWitness.rotate 0).cam_id = gWitness.cam_id ∧
    (gWitness.rotate 0).pix_id = gWitness.pix_id ∧
    (gWitness.rotate 0).pix_area = gWitness.pix_area ∧
    (gWitness.rotate 0).neighbors = gWitness.neighbors ∧
    (gWitness.rotate 0).pix_type = gWitness.pix_type ∧
    (gWitness.rotate 0).pix_x.length = gWitness.pix_x.length ∧
    (gWitness.rotate 0).pix_y.length = gWitness.pix_y.length ∧
    ∀ k, k < gWitness.pix_x.length →
      (gWitness.rotate 0).pix_x.getD k 0
          = Real.cos 0 * gWitness.pix_x.getD k 0 + Real.sin 0 * gWitness.pix_y.getD k 0 ∧
      (gWitness.rotate 0).pix_y.getD k 0
          = -Real.sin 0 * gWitness.pix_x.getD k 0 + Real.cos 0 * gWitness.pix_y.getD k 0 :=
  rotate_moves_only_coordinates gWitness 0 rfl

lemma fnp_getD (xs ys : List ℝ) (rad : ℝ) (i : ℕ) (hi : i < xs.length) :
    (find_neighbor_pixels xs ys rad).getD i [] =
      ((List.range xs.length).filter (fun j =>
        decide (Real.sqrt ((xs.getD j 0 - xs.getD i 0) ^ 2 +
          (ys.getD j 0 - ys.getD i 0) ^ 2) ≤ rad))).erase i := by
  rw [find_neighbor_pixels, List.getD_eq_getElem _ _ (by simpa using hi),
    List.getElem_map, List.getElem_range]

lemma mem_fnp (xs ys : List ℝ) (rad : ℝ) (i j : ℕ) (hi : i < xs.length) :
    j ∈ (find_neighbor_pixels xs ys rad).getD i [] ↔
      (j ≠ i ∧ j < xs.length ∧
        Real.sqrt ((xs.getD j 0 - xs.getD i 0) ^ 2 + (ys.getD j 0 - ys.getD i 0) ^ 2)
          ≤ rad) := by
  rw [fnp_getD xs ys rad i hi,
    List.Nodup.mem_erase_iff ((List.nodup_range _).filter _),
    List.mem_filter, List.mem_range]
  simp [and_assoc]

/-- C8: the neighbor lists of `find_neighbor_pixels` are symmetric — for
distinct in-range indices i and j, j is listed as a neighbor of i exactly
when i is listed as a neighbor of j — and no list contains its own point's
index. -/
theorem find_neighbor_pixels_symm_irrefl (xs ys : List ℝ) (rad : ℝ) (i j : ℕ)
    (hlen : xs.length = ys.length) (_hrad : 0 ≤ rad)
    (hi : i < xs.length) (hj : j < xs.length) (hij : i ≠ j) :
    (j ∈ (find_neighbor_pixels xs ys rad).getD i [] ↔
      i ∈ (find_neighbor_pixels xs ys rad).getD j []) ∧
    (∀ k, k ∉ (find_neighbor_pixels xs ys rad).getD k []) := by
  constructor
  · rw [mem_fnp xs ys rad i j hi, mem_fnp xs ys rad j i hj]
    have hsym : Real.sqrt ((xs.getD j 0 - xs.getD i 0) ^ 2 + (ys.getD j 0 - ys.getD i 0) ^ 2)
        = Real.sqrt ((xs.getD i 0 - xs.getD j 0) ^ 2 + (ys.getD i 0 - ys.getD j 0) ^ 2) := by
      congr 1
      ring
    rw [hsym]
    constructor
    · rintro ⟨-, -, h3⟩
      exact ⟨hij, hi, h3⟩
    · rintro ⟨-, -, h3⟩
      exact ⟨hij.symm, hj, h3⟩
  · intro k
    by_cases hk : k < xs.length
    · rw [mem_fnp xs ys rad k k hk]
      simp
    · have hl : (find_neighbor_pixels xs ys rad).length ≤ k := by
        simp [find_neighbor_pixels]
        omega
      rw [List.getD_eq_default _ _ hl]
      simp

/-- C8: witness instantiating the theorem at the two points (0,0) and (1,0)
with radius 1. -/
theorem find_neighbor_pixels_symm_irrefl_witness :
    ((1:ℕ) ∈ (find_neighbor_pixels [0, 1] [0, 0] 1).getD 0 [] ↔
      (0:ℕ) ∈ (find_neighbor_pixels [0, 1] [0, 0] 1).getD 1 []) ∧
    (∀ k, k ∉ (find_neighbor_pixels [0, 1] [0, 0] 1).getD k []) :=
  find_neighbor_pixels_symm_irrefl [0, 1] [0, 0] 1 0 1 rfl (by norm_num)
    (by norm_num) (by norm_num) (by norm_num)

lemma guess_type_shape (n : ℕ) :
    (guess_camera_type n).2 = "hexagonal" ∨ (guess_camera_type n).2 = "rectangular" := by
  rw [guess_camera_type, npix_to_type]
  split_ifs <;> first | exact Or.inl rfl | exact Or.inr rfl

/-- C10: `guess_camera_type` always yields the pixel type "hexagonal" or
"rectangular" (unknown pixel counts default to "hexagonal"), so the
"unsupported pixel type" error branch of `guess_camera_geometry` is
unreachable for every input. -/
theorem guess_camera_geometry_no_unsupported_error :
    (∀ n, (guess_camera_type n).2 = "hexagonal" ∨ (guess_camera_type n).2 = "rectangular") ∧
    (∀ xs ys : List ℝ, guess_camera_geometry xs ys ≠ .error "unsupported pixel type") := by
  refine ⟨guess_type_shape, ?_⟩
  intro xs ys
  rcases xs with _ | ⟨x0, xs1⟩
  · simp [guess_camera_geometry]
  rcases xs1 with _ | ⟨x1, xr⟩
  · simp [guess_camera_geometry]
  rcases ys with _ | ⟨y0, ys1⟩
  · simp [guess_camera_geometry]
  rcases ys1 with _ | ⟨y1, yr⟩
  · simp [guess_camera_geometry]
  rcases guess_type_shape (xr.length + 1 + 1) with h | h
  · have hs : startswith (guess_camera_type (xr.length + 1 + 1)).2 "hex" = true := by
      rw [h]
      decide
    simp [guess_camera_geometry, hs]
  · have hs1 : startswith (guess_camera_type (xr.length + 1 + 1)).2 "hex" = false := by
      rw [h]
      decide
    have hs2 : startswith (guess_camera_type (xr.length + 1 + 1)).2 "rect" = true := by
      rw [h]
      decide
    simp [guess_camera_geometry, hs1, hs2]
